import Mathlib

/-!
Verification of the temporal control engine (`TimeMachine`) of the
HomeAssistant test harness, shallowly embedded from
`src/ha_integration_test_harness/time_machine.py`.

The embedding models Python `datetime` values (naive, second resolution —
the spec fixes second resolution; microseconds are not used by the engine's
formatted output) as a record of Gregorian calendar components, Python
`timedelta` values as an integer number of seconds, and the external
collaborators (the libfaketime sink, the optional post-update hook, and the
sun-entity oracle) as explicit inputs.  Python `datetime` years are bounded
by 9999; the model leaves the year unbounded, which none of the verified
properties depend on.
-/

deriving instance DecidableEq for Except

namespace TimeMachine

/-- A Python naive `datetime` value at second resolution. -/
structure PyDateTime where
  year : Nat
  month : Nat
  day : Nat
  hour : Nat
  minute : Nat
  second : Nat
deriving Repr, DecidableEq

/-- Gregorian leap-year test, as Python's `calendar.isleap`. -/
def isLeapYear (y : Nat) : Bool :=
  (y % 4 == 0 && y % 100 != 0) || y % 400 == 0

/-- Number of days of month `m` (1-12) in a year with leap flag `leap`. -/
def daysInMonthB (leap : Bool) (m : Nat) : Nat :=
  match m with
  | 1 => 31
  | 2 => if leap then 29 else 28
  | 3 => 31
  | 4 => 30
  | 5 => 31
  | 6 => 30
  | 7 => 31
  | 8 => 31
  | 9 => 30
  | 10 => 31
  | 11 => 30
  | 12 => 31
  | _ => 0

/-- Number of days of month `m` (1-12) of year `y`. -/
def daysInMonth (y m : Nat) : Nat := daysInMonthB (isLeapYear y) m

/-- Days in year `y` strictly before month `m` (so `0` for January). -/
def daysBeforeMonthB (leap : Bool) (m : Nat) : Nat :=
  (match m with
   | 1 => 0
   | 2 => 31
   | 3 => 59
   | 4 => 90
   | 5 => 120
   | 6 => 151
   | 7 => 181
   | 8 => 212
   | 9 => 243
   | 10 => 273
   | 11 => 304
   | 12 => 334
   | _ => 365) + (if 3 ≤ m ∧ leap then 1 else 0)

/-- Days in year `y` strictly before month `m`. -/
def daysBeforeMonth (y m : Nat) : Nat := daysBeforeMonthB (isLeapYear y) m

/-- Number of leap years in `1 .. y-1`. -/
def leapsBefore (y : Nat) : Nat :=
  (y - 1) / 4 - (y - 1) / 100 + (y - 1) / 400

/-- Zero-based proleptic-Gregorian ordinal of a date: `0001-01-01 ↦ 0`
(Python's `date.toordinal()` minus one). -/
def toOrd (y m d : Nat) : Nat :=
  365 * (y - 1) + leapsBefore y + daysBeforeMonth y m + (d - 1)

/-- Ordinal of the date part of a `PyDateTime`. -/
def dateOrd (dt : PyDateTime) : Nat := toOrd dt.year dt.month dt.day

/-- Seconds since midnight. -/
def timeOfDay (dt : PyDateTime) : Nat :=
  dt.hour * 3600 + dt.minute * 60 + dt.second

/-- Absolute second count since 0001-01-01 00:00:00; linearises the
component-lexicographic order on valid datetimes. -/
def toAbs (dt : PyDateTime) : Nat := dateOrd dt * 86400 + timeOfDay dt

/-- Python's `date.weekday()`: Monday = 0 (0001-01-01 is a Monday). -/
def pyWeekday (dt : PyDateTime) : Nat := dateOrd dt % 7

/-- The validity invariant Python `datetime` values always satisfy. -/
def Valid (dt : PyDateTime) : Prop :=
  1 ≤ dt.year ∧ 1 ≤ dt.month ∧ dt.month ≤ 12 ∧
  1 ≤ dt.day ∧ dt.day ≤ daysInMonth dt.year dt.month ∧
  dt.hour < 24 ∧ dt.minute < 60 ∧ dt.second < 60

instance (dt : PyDateTime) : Decidable (Valid dt) := by
  unfold Valid; infer_instance

/-- Python `datetime` comparison `a < b`: lexicographic on the components. -/
def pyLT (a b : PyDateTime) : Bool :=
  a.year < b.year || (a.year == b.year &&
    (a.month < b.month || (a.month == b.month &&
      (a.day < b.day || (a.day == b.day &&
        (a.hour < b.hour || (a.hour == b.hour &&
          (a.minute < b.minute || (a.minute == b.minute &&
            a.second < b.second)))))))))

/-- Python `datetime` comparison `a <= b`. -/
def pyLE (a b : PyDateTime) : Bool := pyLT a b || a == b

/-- Move to the next calendar day (`datetime + timedelta(days=1)`). -/
def addOneDay (dt : PyDateTime) : PyDateTime :=
  if dt.day < daysInMonth dt.year dt.month then
    { dt with day := dt.day + 1 }
  else if dt.month < 12 then
    { dt with month := dt.month + 1, day := 1 }
  else
    { dt with year := dt.year + 1, month := 1, day := 1 }

/-- Move to the previous calendar day (`datetime - timedelta(days=1)`). -/
def subOneDay (dt : PyDateTime) : PyDateTime :=
  if 1 < dt.day then
    { dt with day := dt.day - 1 }
  else if 1 < dt.month then
    { dt with month := dt.month - 1, day := daysInMonth dt.year (dt.month - 1) }
  else
    { dt with year := dt.year - 1, month := 12, day := 31 }

/-- Python `datetime + timedelta(days=n)`. -/
def addDays (n : Nat) (dt : PyDateTime) : PyDateTime :=
  match n with
  | 0 => dt
  | n + 1 => addOneDay (addDays n dt)

/-- Python `datetime - timedelta(days=n)`. -/
def subDays (n : Nat) (dt : PyDateTime) : PyDateTime :=
  match n with
  | 0 => dt
  | n + 1 => subOneDay (subDays n dt)

/-- Overwrite the time-of-day fields from a second count `r < 86400`. -/
def withTime (dt : PyDateTime) (r : Nat) : PyDateTime :=
  { dt with hour := r / 3600, minute := r % 3600 / 60, second := r % 60 }

/-- Python `datetime + timedelta(seconds=s)` for a non-negative `s`. -/
def addSeconds (dt : PyDateTime) (s : Nat) : PyDateTime :=
  let t := timeOfDay dt + s
  addDays (t / 86400) (withTime dt (t % 86400))

/-- Python `datetime - timedelta(seconds=s)` for a non-negative `s`. -/
def subSeconds (dt : PyDateTime) (s : Nat) : PyDateTime :=
  let borrow := (s + 86399 - timeOfDay dt) / 86400
  subDays borrow (withTime dt (timeOfDay dt + borrow * 86400 - s))

/-- Python `datetime + timedelta(seconds=z)` for a signed `z`. -/
def addSecondsInt (dt : PyDateTime) (z : Int) : PyDateTime :=
  if 0 ≤ z then addSeconds dt z.toNat else subSeconds dt (-z).toNat

/-- ASCII lower-casing of one character. -/
def lowerChar (c : Char) : Char :=
  if 'A' ≤ c ∧ c ≤ 'Z' then Char.ofNat (c.toNat + 32) else c

/-- Python's `str.lower()` on the ASCII month/day/preset names. -/
def pyLower (s : String) : String := String.mk (s.data.map lowerChar)

/-- The `MONTH_NAMES` dict: case-normalised month name to 1-12. -/
def monthNames (s : String) : Option Nat :=
  match s with
  | "jan" | "january" => some 1
  | "feb" | "february" => some 2
  | "mar" | "march" => some 3
  | "apr" | "april" => some 4
  | "may" => some 5
  | "jun" | "june" => some 6
  | "jul" | "july" => some 7
  | "aug" | "august" => some 8
  | "sep" | "september" => some 9
  | "oct" | "october" => some 10
  | "nov" | "november" => some 11
  | "dec" | "december" => some 12
  | _ => none

/-- The `DAY_NAMES` dict: case-normalised weekday name to 0-6 (Monday = 0). -/
def dayNames (s : String) : Option Nat :=
  match s with
  | "mon" | "monday" => some 0
  | "tue" | "tuesday" => some 1
  | "wed" | "wednesday" => some 2
  | "thu" | "thursday" => some 3
  | "fri" | "friday" => some 4
  | "sat" | "saturday" => some 5
  | "sun" | "sunday" => some 6
  | _ => none

/-- The exceptions the engine raises: Python `ValueError`,
`OverflowError`, and the harness's `TimeMachineError`. -/
inductive PyErr where
  | valueError
  | overflowError
  | timeMachineError
deriving Repr, DecidableEq

/-- The keyword arguments of `jump_to_next`.  The numeric arguments are
modelled as `Nat`; Python additionally rejects negative values through the
same range checks the model performs. -/
structure JumpArgs where
  month : Option String := none
  day : Option String := none
  day_of_month : Option Nat := none
  hour : Option Nat := none
  minute : Option Nat := none
  second : Option Nat := none
deriving Repr, DecidableEq

/-- Step 1 of `jump_to_next` (source lines 220-235): the month constraint.
When `target_month <= target_dt.month` the code adds
`relativedelta(years=1, month=target_month)`, which replaces the month in
the following year and clamps the day to that month's length; otherwise it
calls `target_dt.replace(month=target_month)`, which raises `ValueError`
when the current day does not exist in the target month. -/
def step1Month (t : PyDateTime) (month : Option String) : Except PyErr PyDateTime :=
  match month with
  | none => .ok t
  | some m =>
    match monthNames (pyLower m) with
    | none => .error .valueError
    | some targetMonth =>
      if targetMonth ≤ t.month then
        .ok { t with year := t.year + 1, month := targetMonth,
                     day := min t.day (daysInMonth (t.year + 1) targetMonth) }
      else
        if daysInMonth t.year targetMonth < t.day then .error .valueError
        else .ok { t with month := targetMonth }

/-- The value `t + relativedelta(months=1, day=d)` (and, with `d := t.day`,
`t + relativedelta(months=1)`): the following calendar month, with the day
clamped to that month's length. -/
def addOneMonthWithDay (t : PyDateTime) (d : Nat) : PyDateTime :=
  if t.month = 12 then
    { t with year := t.year + 1, month := 1, day := min d (daysInMonth (t.year + 1) 1) }
  else
    { t with month := t.month + 1, day := min d (daysInMonth t.year (t.month + 1)) }

/-- Step 2 of `jump_to_next` (source lines 237-260): the day-of-month
constraint.  `target_dt.replace(day=day_of_month)` raises when the day does
not exist in the candidate's month, in which case the code advances with
`relativedelta(months=1, day=day_of_month)`.  Otherwise, a candidate not
strictly after `_fake_time` moves to the next month
(`relativedelta(months=1)`, day clamped) and re-sets the day there, falling
back to the month's last day (`relativedelta(day=31)`) when it does not
exist. -/
def step2DayOfMonth (fake t : PyDateTime) (dom : Option Nat) : Except PyErr PyDateTime :=
  match dom with
  | none => .ok t
  | some d =>
    if ¬(1 ≤ d ∧ d ≤ 31) then .error .valueError
    else if daysInMonth t.year t.month < d then
      .ok (addOneMonthWithDay t d)
    else
      let candidate := { t with day := d }
      if pyLE candidate fake then
        let next := addOneMonthWithDay t t.day
        if daysInMonth next.year next.month < d then
          .ok { next with day := daysInMonth next.year next.month }
        else
          .ok { next with day := d }
      else
        .ok candidate

/-- Step 3 of `jump_to_next` (source lines 262-282): the weekday
constraint.  `days_ahead = (target_weekday - current_weekday) % 7` uses
Python's non-negative `%`; a zero advance is replaced by a full week when
the candidate is not strictly after `_fake_time`. -/
def step3Weekday (fake t : PyDateTime) (day : Option String) : Except PyErr PyDateTime :=
  match day with
  | none => .ok t
  | some s =>
    match dayNames (pyLower s) with
    | none => .error .valueError
    | some targetWeekday =>
      let currentWeekday := pyWeekday t
      let daysAhead0 : Int := ((targetWeekday : Int) - (currentWeekday : Int)) % 7
      let daysAhead : Int := if daysAhead0 = 0 ∧ pyLE t fake then 7 else daysAhead0
      if 0 < daysAhead then .ok (addDays daysAhead.toNat t) else .ok t

/-- Step 4 of `jump_to_next` (source lines 284-298): each specified
time-of-day field overwrites the candidate's component after a range
check. -/
def step4Time (t : PyDateTime) (hour minute second : Option Nat) : Except PyErr PyDateTime := do
  let t1 ← match hour with
    | none => Except.ok t
    | some h => if h ≤ 23 then Except.ok { t with hour := h } else Except.error PyErr.valueError
  let t2 ← match minute with
    | none => Except.ok t1
    | some mi => if mi ≤ 59 then Except.ok { t1 with minute := mi } else Except.error PyErr.valueError
  match second with
  | none => Except.ok t2
  | some s => if s ≤ 59 then Except.ok { t2 with second := s } else Except.error PyErr.valueError

/-- The four resolution steps of `jump_to_next`, in source order
(month, day-of-month, weekday, time-of-day). -/
def resolveConstraints (fake : PyDateTime) (a : JumpArgs) : Except PyErr PyDateTime := do
  let t1 ← step1Month fake a.month
  let t2 ← step2DayOfMonth fake t1 a.day_of_month
  let t3 ← step3Weekday fake t2 a.day
  step4Time t3 a.hour a.minute a.second

/-- The final forward-check of `jump_to_next` (source lines 300-308): a
candidate not strictly after `_fake_time` is advanced by 7 days when a
weekday constraint was given, otherwise by 1 day. -/
def rolloverFix (fake : PyDateTime) (dayArg : Option String) (t : PyDateTime) : PyDateTime :=
  if pyLE t fake then
    if dayArg.isSome then addDays 7 t else addDays 1 t
  else t

/-- The target computed by `jump_to_next` (source lines 165-308),
up to the `_set_time` call. -/
def jump_to_next (fake : PyDateTime) (a : JumpArgs) : Except PyErr PyDateTime :=
  (resolveConstraints fake a).map (rolloverFix fake a.day)

/-- The target computed by `fast_forward` (source lines 120-163), up to the
`_set_time` call: rejects a negative delta, then adds it to `_fake_time`.
`delta` is the `timedelta`'s total seconds. -/
def fast_forward (fake : PyDateTime) (delta : Int) : Except PyErr PyDateTime :=
  if delta < 0 then .error .valueError
  else .ok (addSeconds fake delta.toNat)

/-- A parsed ISO 8601 timestamp as `datetime.fromisoformat` returns it:
civil clock-face digits plus the (optional) UTC offset carried by the
string's `tzinfo`. -/
structure IsoTimestamp where
  dt : PyDateTime
  tzOffsetMinutes : Option Int := none
deriving Repr, DecidableEq

/-- Model of `datetime.fromisoformat(s).replace(tzinfo=None)` (source lines
366-372): keeps the civil clock-face digits, discards the UTC offset. -/
def stripTzinfo (i : IsoTimestamp) : PyDateTime := i.dt

/-- The `sun.sun` entity attributes `advance_to_preset` reads, already
parsed at the value level (a malformed timestamp string, not modelled here,
raises the same `TimeMachineError` as a missing attribute). -/
structure SunAttributes where
  next_rising : Option IsoTimestamp := none
  next_setting : Option IsoTimestamp := none
deriving Repr, DecidableEq

/-- The target computed by `advance_to_preset` (source lines 318-390), up
to the `_set_time` call.  `oracle` is `none` when no `get_entity_state`
callback is configured (`ValueError`), `some none` when the callback
returns no `sun.sun` state (`TimeMachineError`). -/
def advance_to_preset (fake : PyDateTime) (oracle : Option (Option SunAttributes))
    (preset : String) (offset : Option Int) : Except PyErr PyDateTime :=
  match oracle with
  | none => .error .valueError
  | some sunState =>
    let presetLower := pyLower preset
    if presetLower ≠ "sunrise" ∧ presetLower ≠ "sunset" then .error .valueError
    else
      match sunState with
      | none => .error .timeMachineError
      | some attrs =>
        let iso? := if presetLower = "sunrise" then attrs.next_rising else attrs.next_setting
        match iso? with
        | none => .error .timeMachineError
        | some iso =>
          let presetDt := stripTzinfo iso
          let offsetApplied := offset.getD 0
          let target := addSecondsInt presetDt offsetApplied
          if pyLE target fake then .error .timeMachineError
          else .ok target

/-- Zero-padded two-digit decimal numeral. -/
def pad2 (n : Nat) : String := if n < 10 then "0" ++ toString n else toString n

/-- Zero-padded four-digit decimal numeral. -/
def pad4 (n : Nat) : String :=
  if n < 10 then "000" ++ toString n
  else if n < 100 then "00" ++ toString n
  else if n < 1000 then "0" ++ toString n
  else toString n

/-- The string `target_dt.strftime("@%Y-%m-%d %H:%M:%S")` (source line 107): the
libfaketime absolute-timestamp format handed to the sink. -/
def formatFaketime (dt : PyDateTime) : String :=
  "@" ++ pad4 dt.year ++ "-" ++ pad2 dt.month ++ "-" ++ pad2 dt.day ++ " " ++
    pad2 dt.hour ++ ":" ++ pad2 dt.minute ++ ":" ++ pad2 dt.second

/-- Behaviour of the external collaborators during one call: does the sink
call succeed, and is a post-update hook configured (`none`: no hook;
`some b`: hook present and succeeds iff `b`). -/
structure SinkEnv where
  sinkOk : Bool
  hook : Option Bool
deriving Repr, DecidableEq

/-- Outcome of one façade call: the `_fake_time` after the call, whether
the call returned without raising, and the strings handed to the sink. -/
structure StepResult where
  fake : PyDateTime
  ok : Bool
  sinkMsgs : List String
deriving Repr, DecidableEq

/-- Model of `_set_time` (source lines 92-118): formats the target, then inside a
single `try` calls the sink, commits `_fake_time`, and invokes the optional
hook.  A sink failure leaves `_fake_time` unchanged; a hook failure happens
after the commit; either exception is re-raised as `TimeMachineError`. -/
def _set_time (env : SinkEnv) (fake target : PyDateTime) : StepResult :=
  let msg := formatFaketime target
  if env.sinkOk then
    match env.hook with
    | some false => ⟨target, false, [msg]⟩
    | _ => ⟨target, true, [msg]⟩
  else ⟨fake, false, [msg]⟩

/-- The three time-advancing façade operations and their call inputs. -/
inductive Op where
  | fastForward (delta : Int)
  | jumpToNext (args : JumpArgs)
  | advanceToPreset (oracle : Option (Option SunAttributes))
      (preset : String) (offset : Option Int)

/-- The pure target computation of each operation. -/
def resolveOp (fake : PyDateTime) : Op → Except PyErr PyDateTime
  | .fastForward delta => fast_forward fake delta
  | .jumpToNext a => jump_to_next fake a
  | .advanceToPreset oracle preset offset => advance_to_preset fake oracle preset offset

/-- One full façade call: resolve the target, then apply it through
`_set_time`.  A resolver error raises before any sink call. -/
def stepOp (env : SinkEnv) (fake : PyDateTime) (op : Op) : StepResult :=
  match resolveOp fake op with
  | .error _ => ⟨fake, false, []⟩
  | .ok target => _set_time env fake target

/-- The methods defined by `class TimeMachine` in the source
(lines 59-398), in definition order. -/
def timeMachineMethods : List String :=
  ["__init__", "_set_time", "fast_forward", "jump_to_next", "advance_to_preset"]

/-! ### Calendar arithmetic lemmas -/

/-- Introduction rule for `Valid` on a literal record. -/
theorem Valid_mk {y mo d hh mi s : Nat} (h1 : 1 ≤ y) (h2 : 1 ≤ mo) (h3 : mo ≤ 12)
    (h4 : 1 ≤ d) (h5 : d ≤ daysInMonth y mo) (h6 : hh < 24) (h7 : mi < 60) (h8 : s < 60) :
    Valid ⟨y, mo, d, hh, mi, s⟩ :=
  ⟨h1, h2, h3, h4, h5, h6, h7, h8⟩

theorem daysInMonthB_pos : ∀ (L : Bool), ∀ m < 13, 1 ≤ m → 28 ≤ daysInMonthB L m := by
  decide

theorem daysInMonthB_le31 : ∀ (L : Bool), ∀ m < 13, daysInMonthB L m ≤ 31 := by
  decide

theorem daysBeforeMonthB_succ : ∀ (L : Bool), ∀ m < 13, 1 ≤ m →
    daysBeforeMonthB L (m + 1) = daysBeforeMonthB L m + daysInMonthB L m := by
  decide

theorem daysBeforeMonthB_mono : ∀ (L : Bool), ∀ m < 14, ∀ m' < 14, 1 ≤ m → m ≤ m' →
    daysBeforeMonthB L m ≤ daysBeforeMonthB L m' := by
  decide

theorem daysBeforeMonthB_year : ∀ (L : Bool),
    daysBeforeMonthB L 13 = 365 + (if L then 1 else 0) := by
  decide

theorem leapsBefore_succ (y : Nat) (hy : 1 ≤ y) :
    leapsBefore (y + 1) = leapsBefore y + (if isLeapYear y then 1 else 0) := by
  unfold leapsBefore isLeapYear
  split
  case isTrue h =>
    simp only [Bool.or_eq_true, Bool.and_eq_true, beq_iff_eq, bne_iff_ne] at h
    omega
  case isFalse h =>
    simp only [Bool.or_eq_true, Bool.and_eq_true, beq_iff_eq, bne_iff_ne,
      not_or, not_and_or, not_not] at h
    omega

theorem leapsBefore_le_succ (y : Nat) : leapsBefore y ≤ leapsBefore (y + 1) := by
  rcases Nat.eq_zero_or_pos y with h | h
  · subst h; decide
  · rw [leapsBefore_succ y h]; split <;> omega

theorem leapsBefore_mono : ∀ {y y' : Nat}, y ≤ y' → leapsBefore y ≤ leapsBefore y' := by
  intro y y' h
  induction y' with
  | zero =>
    have hz : y = 0 := by omega
    subst hz; exact le_rfl
  | succ n ih =>
    rcases Nat.lt_or_ge y (n + 1) with h' | h'
    · exact le_trans (ih (by omega)) (leapsBefore_le_succ n)
    · have : y = n + 1 := by omega
      subst this; exact le_rfl

/-- The map `toOrd` is strictly monotone with respect to the lexicographic order on
valid calendar dates. -/
theorem toOrd_lt_toOrd {y m d y' m' d' : Nat}
    (hy : 1 ≤ y) (hm : 1 ≤ m) (hm12 : m ≤ 12) (hd : 1 ≤ d)
    (hdm : d ≤ daysInMonth y m)
    (hm' : 1 ≤ m') (hm12' : m' ≤ 12) (hd' : 1 ≤ d')
    (hlt : y < y' ∨ (y = y' ∧ (m < m' ∨ (m = m' ∧ d < d')))) :
    toOrd y m d < toOrd y' m' d' := by
  have hsucc := daysBeforeMonthB_succ (isLeapYear y) m (by omega) hm
  have hmono13 := daysBeforeMonthB_mono (isLeapYear y) (m + 1) (by omega) 13 (by omega)
    (by omega) (by omega)
  have hyear := daysBeforeMonthB_year (isLeapYear y)
  -- in all cases, stepping past the last day of month `m` of year `y`
  -- stays within `toOrd (y+1) 1 1`
  have hbound : toOrd y m d + 1 ≤ toOrd (y + 1) 1 1 := by
    have hls := leapsBefore_succ y hy
    unfold toOrd daysBeforeMonth daysInMonth at *
    split at hyear <;> split at hls <;> simp_all <;> omega
  rcases hlt with hyy | ⟨rfl, hmm | ⟨rfl, hdd⟩⟩
  · -- strictly later year
    have h2 : toOrd (y + 1) 1 1 ≤ toOrd y' m' d' := by
      have hlb : leapsBefore (y + 1) ≤ leapsBefore y' := leapsBefore_mono (by omega)
      unfold toOrd daysBeforeMonth
      have h0 : daysBeforeMonthB (isLeapYear (y + 1)) 1 = 0 := by cases h : isLeapYear (y + 1) <;> simp [daysBeforeMonthB]
      have h1 : 0 ≤ daysBeforeMonthB (isLeapYear y') m' := Nat.zero_le _
      rw [h0]
      have : 365 * (y + 1 - 1) ≤ 365 * (y' - 1) := by
        apply Nat.mul_le_mul_left; omega
      omega
    omega
  · -- same year, strictly later month
    have hmono : daysBeforeMonthB (isLeapYear y) (m + 1) ≤ daysBeforeMonthB (isLeapYear y) m' :=
      daysBeforeMonthB_mono (isLeapYear y) (m + 1) (by omega) m' (by omega) (by omega) (by omega)
    unfold toOrd daysBeforeMonth daysInMonth at *
    omega
  · -- same date, strictly later day
    unfold toOrd
    omega

/-- On valid datetimes the time-of-day is below one day of seconds. -/
theorem timeOfDay_lt {a : PyDateTime} (ha : Valid a) : timeOfDay a < 86400 := by
  obtain ⟨_, _, _, _, _, h1, h2, h3⟩ := ha
  unfold timeOfDay
  omega

/-- Python's `<` on valid datetimes agrees with the absolute second count. -/
theorem toAbs_lt_of_pyLT {a b : PyDateTime} (ha : Valid a) (hb : Valid b)
    (h : pyLT a b = true) : toAbs a < toAbs b := by
  have hta := timeOfDay_lt ha
  have htb := timeOfDay_lt hb
  obtain ⟨ha1, ha2, ha3, ha4, ha5, ha6, ha7, ha8⟩ := ha
  obtain ⟨hb1, hb2, hb3, hb4, hb5, hb6, hb7, hb8⟩ := hb
  simp only [pyLT, Bool.or_eq_true, Bool.and_eq_true, decide_eq_true_eq, beq_iff_eq] at h
  have hcases : dateOrd a < dateOrd b ∨
      (dateOrd a = dateOrd b ∧ timeOfDay a < timeOfDay b) := by
    rcases h with h | ⟨hy, h⟩
    · exact Or.inl (toOrd_lt_toOrd ha1 ha2 ha3 ha4 ha5 hb2 hb3 hb4 (Or.inl h))
    · rcases h with h | ⟨hmo, h⟩
      · exact Or.inl (toOrd_lt_toOrd ha1 ha2 ha3 ha4 ha5 hb2 hb3 hb4
          (Or.inr ⟨hy, Or.inl h⟩))
      · rcases h with h | ⟨hdy, h⟩
        · exact Or.inl (toOrd_lt_toOrd ha1 ha2 ha3 ha4 ha5 hb2 hb3 hb4
          (Or.inr ⟨hy, Or.inr ⟨hmo, h⟩⟩))
        · refine Or.inr ⟨by unfold dateOrd; rw [hy, hmo, hdy], ?_⟩
          unfold timeOfDay
          rcases h with h | ⟨hh, h⟩
          · omega
          · rcases h with h | ⟨hmi, h⟩ <;> omega
  unfold toAbs
  omega

/-- Python's datetime comparison is total. -/
theorem pyLT_total (a b : PyDateTime) : pyLT a b = true ∨ a = b ∨ pyLT b a = true := by
  cases a; cases b
  simp only [pyLT, Bool.or_eq_true, Bool.and_eq_true, decide_eq_true_eq, beq_iff_eq,
    PyDateTime.mk.injEq]
  omega

/-- Python's `<=` on valid datetimes agrees with the absolute second count. -/
theorem pyLE_iff {a b : PyDateTime} (ha : Valid a) (hb : Valid b) :
    pyLE a b = true ↔ toAbs a ≤ toAbs b := by
  constructor
  · intro h
    rcases Bool.or_eq_true _ _ |>.mp h with h | h
    · exact le_of_lt (toAbs_lt_of_pyLT ha hb h)
    · rw [show a = b from beq_iff_eq.mp h]
  · intro h
    rcases pyLT_total a b with h' | h' | h'
    · exact Bool.or_eq_true _ _ |>.mpr (Or.inl h')
    · exact Bool.or_eq_true _ _ |>.mpr (Or.inr (beq_iff_eq.mpr h'))
    · exact absurd (toAbs_lt_of_pyLT hb ha h') (by omega)

/-- Python's `<` on valid datetimes agrees with the absolute second count,
in both directions. -/
theorem pyLT_iff {a b : PyDateTime} (ha : Valid a) (hb : Valid b) :
    pyLT a b = true ↔ toAbs a < toAbs b := by
  constructor
  · exact toAbs_lt_of_pyLT ha hb
  · intro h
    rcases pyLT_total a b with h' | h' | h'
    · exact h'
    · subst h'; omega
    · exact absurd (toAbs_lt_of_pyLT hb ha h') (by omega)

/-- A failed `<=` check on valid datetimes means strictly greater. -/
theorem pyLE_false_iff {a b : PyDateTime} (ha : Valid a) (hb : Valid b) :
    pyLE a b = false ↔ toAbs b < toAbs a := by
  have h := pyLE_iff ha hb
  constructor
  · intro hf
    have hn : ¬ (toAbs a ≤ toAbs b) := fun hle => by
      have := h.mpr hle
      rw [hf] at this
      exact Bool.false_ne_true this
    omega
  · intro hlt
    cases hq : pyLE a b
    · rfl
    · have := h.mp hq
      omega

/-! ### Day and second arithmetic lemmas -/

theorem addOneDay_time (dt : PyDateTime) :
    (addOneDay dt).hour = dt.hour ∧ (addOneDay dt).minute = dt.minute ∧
    (addOneDay dt).second = dt.second := by
  unfold addOneDay
  split
  · exact ⟨rfl, rfl, rfl⟩
  · split <;> exact ⟨rfl, rfl, rfl⟩

theorem daysInMonth_pos {y m : Nat} (h1 : 1 ≤ m) (h2 : m ≤ 12) :
    1 ≤ daysInMonth y m := by
  have := daysInMonthB_pos (isLeapYear y) m (by omega) h1
  unfold daysInMonth
  omega

theorem Valid_addOneDay {dt : PyDateTime} (h : Valid dt) : Valid (addOneDay dt) := by
  obtain ⟨y, mo, d, hh, mi, s⟩ := dt
  obtain ⟨h1, h2, h3, h4, h5, h6, h7, h8⟩ := h
  dsimp only at h1 h2 h3 h4 h5 h6 h7 h8
  unfold addOneDay Valid
  dsimp only
  split
  case isTrue hlt =>
    try dsimp only
    try dsimp only at hlt
    exact ⟨h1, h2, h3, by omega, by omega, h6, h7, h8⟩
  case isFalse hge =>
    split
    case isTrue hm =>
      try dsimp only
      try dsimp only at hm
      exact ⟨h1, by omega, by omega, le_refl 1,
        daysInMonth_pos (by omega) (by omega), h6, h7, h8⟩
    case isFalse hm =>
      try dsimp only
      try dsimp only at hm
      exact ⟨by omega, by omega, by omega, le_refl 1,
        daysInMonth_pos (by omega) (by omega), h6, h7, h8⟩

theorem dateOrd_addOneDay {dt : PyDateTime} (h : Valid dt) :
    dateOrd (addOneDay dt) = dateOrd dt + 1 := by
  obtain ⟨y, mo, d, hh, mi, s⟩ := dt
  obtain ⟨h1, h2, h3, h4, h5, -, -, -⟩ := h
  dsimp only at h1 h2 h3 h4 h5
  unfold addOneDay
  dsimp only
  split
  case isTrue hlt =>
    try dsimp only at hlt
    unfold dateOrd toOrd
    try dsimp only
    omega
  case isFalse hge =>
    try dsimp only at hge
    split
    case isTrue hm =>
      try dsimp only at hm
      have hs := daysBeforeMonthB_succ (isLeapYear y) mo (by omega : mo < 13) h2
      unfold dateOrd toOrd daysBeforeMonth daysInMonth at *
      dsimp only
      omega
    case isFalse hm =>
      try dsimp only at hm
      have hm12 : mo = 12 := by omega
      subst hm12
      have hy := leapsBefore_succ y h1
      have h12 : daysBeforeMonthB (isLeapYear y) 12 =
          334 + (if isLeapYear y then 1 else 0) := by
        cases hL : isLeapYear y <;> simp [daysBeforeMonthB]
      have h0 : daysBeforeMonthB (isLeapYear (y + 1)) 1 = 0 := by
        cases hL : isLeapYear (y + 1) <;> simp [daysBeforeMonthB]
      have h31 : daysInMonth y 12 = 31 := rfl
      unfold dateOrd toOrd daysBeforeMonth daysInMonth at *
      dsimp only
      rw [h0]
      omega

theorem addDays_spec {dt : PyDateTime} (h : Valid dt) (n : Nat) :
    Valid (addDays n dt) ∧ dateOrd (addDays n dt) = dateOrd dt + n ∧
    (addDays n dt).hour = dt.hour ∧ (addDays n dt).minute = dt.minute ∧
    (addDays n dt).second = dt.second := by
  induction n with
  | zero => exact ⟨h, rfl, rfl, rfl, rfl⟩
  | succ k ih =>
    obtain ⟨ihv, ihd, ihh, ihm, ihs⟩ := ih
    obtain ⟨hth, htm, hts⟩ := addOneDay_time (addDays k dt)
    refine ⟨Valid_addOneDay ihv, ?_, ?_, ?_, ?_⟩
    · show dateOrd (addOneDay (addDays k dt)) = _
      rw [dateOrd_addOneDay ihv, ihd]
      omega
    · show (addOneDay (addDays k dt)).hour = _
      rw [hth, ihh]
    · show (addOneDay (addDays k dt)).minute = _
      rw [htm, ihm]
    · show (addOneDay (addDays k dt)).second = _
      rw [hts, ihs]

theorem timeOfDay_addDays (n : Nat) (dt : PyDateTime) :
    timeOfDay (addDays n dt) = timeOfDay dt := by
  induction n with
  | zero => rfl
  | succ k ih =>
    obtain ⟨hth, htm, hts⟩ := addOneDay_time (addDays k dt)
    show timeOfDay (addOneDay (addDays k dt)) = _
    unfold timeOfDay at *
    rw [hth, htm, hts, ih]

theorem toAbs_addDays {dt : PyDateTime} (h : Valid dt) (n : Nat) :
    toAbs (addDays n dt) = toAbs dt + n * 86400 := by
  obtain ⟨-, hd, -, -, -⟩ := addDays_spec h n
  unfold toAbs
  rw [hd, timeOfDay_addDays]
  ring

theorem withTime_date (dt : PyDateTime) (r : Nat) :
    (withTime dt r).year = dt.year ∧ (withTime dt r).month = dt.month ∧
    (withTime dt r).day = dt.day := by
  exact ⟨rfl, rfl, rfl⟩

theorem timeOfDay_withTime (dt : PyDateTime) (r : Nat) (hr : r < 86400) :
    timeOfDay (withTime dt r) = r := by
  unfold timeOfDay withTime
  dsimp only
  omega

theorem dateOrd_withTime (dt : PyDateTime) (r : Nat) :
    dateOrd (withTime dt r) = dateOrd dt := rfl

theorem Valid_withTime {dt : PyDateTime} (h : Valid dt) (r : Nat) (hr : r < 86400) :
    Valid (withTime dt r) := by
  obtain ⟨y, mo, d, hh, mi, s⟩ := dt
  obtain ⟨h1, h2, h3, h4, h5, -, -, -⟩ := h
  unfold Valid withTime
  try dsimp only
  exact ⟨h1, h2, h3, h4, h5, by omega, by omega, by omega⟩

theorem addSeconds_spec {dt : PyDateTime} (h : Valid dt) (s : Nat) :
    Valid (addSeconds dt s) ∧ toAbs (addSeconds dt s) = toAbs dt + s := by
  unfold addSeconds
  have hr : (timeOfDay dt + s) % 86400 < 86400 := Nat.mod_lt _ (by omega)
  have hv := Valid_withTime h _ hr
  refine ⟨(addDays_spec hv _).1, ?_⟩
  rw [toAbs_addDays hv]
  unfold toAbs
  rw [dateOrd_withTime, timeOfDay_withTime _ _ hr]
  omega

theorem addOneDay_withTime (dt : PyDateTime) (r : Nat) :
    addOneDay (withTime dt r) = withTime (addOneDay dt) r := by
  cases dt
  unfold addOneDay withTime
  dsimp only
  split
  · rfl
  · split <;> rfl

theorem addDays_withTime (n : Nat) (dt : PyDateTime) (r : Nat) :
    addDays n (withTime dt r) = withTime (addDays n dt) r := by
  induction n with
  | zero => rfl
  | succ k ih =>
    show addOneDay (addDays k (withTime dt r)) = withTime (addOneDay (addDays k dt)) r
    rw [ih, addOneDay_withTime]

theorem withTime_withTime (dt : PyDateTime) (r r' : Nat) :
    withTime (withTime dt r) r' = withTime dt r' := by
  cases dt
  rfl

theorem addDays_addDays (m n : Nat) (dt : PyDateTime) :
    addDays m (addDays n dt) = addDays (m + n) dt := by
  induction m with
  | zero => rw [Nat.zero_add]; rfl
  | succ k ih =>
    show addOneDay (addDays k (addDays n dt)) = addDays (k + 1 + n) dt
    rw [ih, show k + 1 + n = (k + n) + 1 from by omega]
    rfl

theorem addSeconds_addSeconds (dt : PyDateTime) (a b : Nat) :
    addSeconds (addSeconds dt a) b = addSeconds dt (a + b) := by
  unfold addSeconds
  try dsimp only
  have hr : (timeOfDay dt + a) % 86400 < 86400 := Nat.mod_lt _ (by omega)
  rw [timeOfDay_addDays, timeOfDay_withTime _ _ hr]
  rw [← addDays_withTime, addDays_addDays, withTime_withTime]
  have hq : (timeOfDay dt + a) % 86400 + b = timeOfDay dt + (a + b) -
      86400 * ((timeOfDay dt + a) / 86400) := by
    omega
  congr 1
  · omega
  · congr 1
    omega

/-! ### Resolver step lemmas -/

theorem monthNames_range {s : String} {n : Nat} (h : monthNames s = some n) :
    1 ≤ n ∧ n ≤ 12 := by
  unfold monthNames at h
  split at h <;> simp_all <;> omega

theorem dayNames_range {s : String} {w : Nat} (h : dayNames s = some w) : w ≤ 6 := by
  unfold dayNames at h
  split at h <;> simp_all <;> omega

theorem addOneMonthWithDay_spec {t0 : PyDateTime} (hv : Valid t0) (d : Nat) (hd : 1 ≤ d) :
    Valid (addOneMonthWithDay t0 d) ∧ dateOrd t0 < dateOrd (addOneMonthWithDay t0 d) ∧
    (addOneMonthWithDay t0 d).hour = t0.hour ∧
    (addOneMonthWithDay t0 d).minute = t0.minute ∧
    (addOneMonthWithDay t0 d).second = t0.second := by
  obtain ⟨y, mo, d0, hh, mi, s⟩ := t0
  obtain ⟨h1, h2, h3, h4, h5, h6, h7, h8⟩ := hv
  try dsimp only at h1 h2 h3 h4 h5 h6 h7 h8
  unfold addOneMonthWithDay
  try dsimp only
  by_cases hm : mo = 12
  · subst hm
    rw [if_pos rfl]
    have hp := daysInMonth_pos (y := y + 1) (m := 1) (by omega) (by omega)
    have hmin1 : 1 ≤ min d (daysInMonth (y + 1) 1) := le_min hd hp
    have hmin2 : min d (daysInMonth (y + 1) 1) ≤ daysInMonth (y + 1) 1 := min_le_right _ _
    refine ⟨?_, ?_, rfl, rfl, rfl⟩
    · exact Valid_mk (by omega) (by omega) (by omega) hmin1 hmin2 h6 h7 h8
    · show toOrd y 12 d0 < toOrd (y + 1) 1 (min d (daysInMonth (y + 1) 1))
      exact toOrd_lt_toOrd h1 h2 h3 h4 h5 (by omega) (by omega) hmin1 (Or.inl (by omega))
  · rw [if_neg hm]
    have hp := daysInMonth_pos (y := y) (m := mo + 1) (by omega) (by omega)
    have hmin1 : 1 ≤ min d (daysInMonth y (mo + 1)) := le_min hd hp
    have hmin2 : min d (daysInMonth y (mo + 1)) ≤ daysInMonth y (mo + 1) := min_le_right _ _
    refine ⟨?_, ?_, rfl, rfl, rfl⟩
    · exact Valid_mk (by omega) (by omega) (by omega) hmin1 hmin2 h6 h7 h8
    · show toOrd y mo d0 < toOrd y (mo + 1) (min d (daysInMonth y (mo + 1)))
      exact toOrd_lt_toOrd h1 h2 h3 h4 h5 (by omega) (by omega) hmin1
        (Or.inr ⟨rfl, Or.inl (by omega)⟩)

theorem setDay_addOneMonthWithDay (t0 : PyDateTime) (d0 X : Nat)
    (hX : X ≤ daysInMonth (addOneMonthWithDay t0 d0).year (addOneMonthWithDay t0 d0).month) :
    { addOneMonthWithDay t0 d0 with day := X } = addOneMonthWithDay t0 X := by
  obtain ⟨y, mo, d, hh, mi, s⟩ := t0
  unfold addOneMonthWithDay at *
  by_cases hm : mo = 12
  · simp only [if_pos hm] at hX ⊢
    try dsimp only at hX ⊢
    simp only [PyDateTime.mk.injEq, Nat.min_def, eq_self_iff_true, true_and, and_true]
    split <;> omega
  · simp only [if_neg hm] at hX ⊢
    try dsimp only at hX ⊢
    simp only [PyDateTime.mk.injEq, Nat.min_def, eq_self_iff_true, true_and, and_true]
    split <;> omega

/-- Step 1 preserves validity and the time of day, and never moves the
candidate's date backwards. -/
theorem step1Month_spec {t0 t : PyDateTime} {m : Option String}
    (hv : Valid t0) (h : step1Month t0 m = .ok t) :
    Valid t ∧ dateOrd t0 ≤ dateOrd t ∧
    t.hour = t0.hour ∧ t.minute = t0.minute ∧ t.second = t0.second := by
  cases m with
  | none =>
    simp only [step1Month] at h
    injection h with h'
    subst h'
    exact ⟨hv, le_rfl, rfl, rfl, rfl⟩
  | some ms =>
    simp only [step1Month] at h
    cases hmn : monthNames (pyLower ms) with
    | none =>
      rw [hmn] at h
      exact Except.noConfusion h
    | some tm =>
      rw [hmn] at h
      obtain ⟨htm1, htm2⟩ := monthNames_range hmn
      obtain ⟨y, mo, d0, hh, mi, s0⟩ := t0
      obtain ⟨h1, h2, h3, h4, h5, h6, h7, h8⟩ := hv
      try dsimp only at h h1 h2 h3 h4 h5 h6 h7 h8
      split at h
      case isTrue hle =>
        injection h with h'
        subst h'
        have hp := daysInMonth_pos (y := y + 1) (m := tm) htm1 htm2
        have hmin1 : 1 ≤ min d0 (daysInMonth (y + 1) tm) := le_min h4 hp
        have hmin2 : min d0 (daysInMonth (y + 1) tm) ≤ daysInMonth (y + 1) tm :=
          min_le_right _ _
        refine ⟨Valid_mk (by omega) htm1 htm2 hmin1 hmin2 h6 h7 h8, ?_, rfl, rfl, rfl⟩
        show toOrd y mo d0 ≤ toOrd (y + 1) tm (min d0 (daysInMonth (y + 1) tm))
        exact le_of_lt (toOrd_lt_toOrd h1 h2 h3 h4 h5 htm1 htm2 hmin1 (Or.inl (by omega)))
      case isFalse hgt =>
        split at h
        case isTrue hbad => exact Except.noConfusion h
        case isFalse hok =>
          injection h with h'
          subst h'
          refine ⟨Valid_mk h1 htm1 htm2 h4 (by omega) h6 h7 h8, ?_, rfl, rfl, rfl⟩
          show toOrd y mo d0 ≤ toOrd y tm d0
          exact le_of_lt (toOrd_lt_toOrd h1 h2 h3 h4 h5 htm1 htm2 h4
            (Or.inr ⟨rfl, Or.inl (by omega)⟩))

/-- Step 2 preserves validity and the time of day, and never resolves to a
date before `_fake_time`'s date. -/
theorem step2_spec {fake t0 t : PyDateTime} {dom : Option Nat}
    (hvf : Valid fake) (hv : Valid t0) (hord : dateOrd fake ≤ dateOrd t0)
    (h : step2DayOfMonth fake t0 dom = .ok t) :
    Valid t ∧ dateOrd fake ≤ dateOrd t ∧
    t.hour = t0.hour ∧ t.minute = t0.minute ∧ t.second = t0.second := by
  cases dom with
  | none =>
    simp only [step2DayOfMonth] at h
    injection h with h'
    subst h'
    exact ⟨hv, hord, rfl, rfl, rfl⟩
  | some d =>
    simp only [step2DayOfMonth] at h
    split at h
    case isTrue hrange => exact Except.noConfusion h
    case isFalse hrange =>
      have hd : 1 ≤ d ∧ d ≤ 31 := not_not.mp hrange
      split at h
      case isTrue hbig =>
        injection h with h'
        subst h'
        obtain ⟨hva, horda, hha, hma, hsa⟩ := addOneMonthWithDay_spec hv d (by omega)
        exact ⟨hva, by omega, hha, hma, hsa⟩
      case isFalse hsmall =>
        split at h
        case isTrue hle =>
          have hvnext := (addOneMonthWithDay_spec hv t0.day hv.2.2.2.1).1
          split at h
          case isTrue hnone =>
            injection h with h'
            subst h'
            rw [setDay_addOneMonthWithDay t0 t0.day _ (le_refl _)]
            have hp : 1 ≤ daysInMonth (addOneMonthWithDay t0 t0.day).year
                (addOneMonthWithDay t0 t0.day).month :=
              daysInMonth_pos hvnext.2.1 hvnext.2.2.1
            obtain ⟨hva, horda, hha, hma, hsa⟩ := addOneMonthWithDay_spec hv _ hp
            exact ⟨hva, by omega, hha, hma, hsa⟩
          case isFalse hsome =>
            injection h with h'
            subst h'
            rw [setDay_addOneMonthWithDay t0 t0.day d (by omega)]
            obtain ⟨hva, horda, hha, hma, hsa⟩ := addOneMonthWithDay_spec hv d (by omega)
            exact ⟨hva, by omega, hha, hma, hsa⟩
        case isFalse hnle =>
          injection h with h'
          subst h'
          obtain ⟨y, mo, d0, hh, mi, s0⟩ := t0
          obtain ⟨h1, h2, h3, h4, h5, h6, h7, h8⟩ := hv
          try dsimp only at h1 h2 h3 h4 h5 h6 h7 h8 hsmall hnle hord
          have hvc : Valid ⟨y, mo, d, hh, mi, s0⟩ :=
            Valid_mk h1 h2 h3 (by omega) (by omega) h6 h7 h8
          have hlt := (pyLE_false_iff hvc hvf).mp (Bool.not_eq_true _ ▸ hnle)
          have htf := timeOfDay_lt hvf
          have htc := timeOfDay_lt hvc
          refine ⟨hvc, ?_, rfl, rfl, rfl⟩
          show dateOrd fake ≤ dateOrd ⟨y, mo, d, hh, mi, s0⟩
          unfold toAbs at hlt
          omega

/-- Step 3 preserves validity and the time of day, never moves the date
backwards, and lands exactly on the requested weekday. -/
theorem step3_spec {fake t0 t : PyDateTime} {dayArg : Option String}
    (hv : Valid t0) (hord : dateOrd fake ≤ dateOrd t0)
    (h : step3Weekday fake t0 dayArg = .ok t) :
    Valid t ∧ dateOrd fake ≤ dateOrd t ∧
    t.hour = t0.hour ∧ t.minute = t0.minute ∧ t.second = t0.second ∧
    ∀ ds w, dayArg = some ds → dayNames (pyLower ds) = some w → pyWeekday t = w := by
  cases dayArg with
  | none =>
    simp only [step3Weekday] at h
    injection h with h'
    subst h'
    exact ⟨hv, hord, rfl, rfl, rfl, fun ds w hc => Option.noConfusion hc⟩
  | some ds0 =>
    simp only [step3Weekday] at h
    cases hdn : dayNames (pyLower ds0) with
    | none =>
      rw [hdn] at h
      exact Except.noConfusion h
    | some tw =>
      rw [hdn] at h
      try dsimp only at h
      have htw : tw ≤ 6 := dayNames_range hdn
      have hcw : pyWeekday t0 = dateOrd t0 % 7 := rfl
      have hgoalWd : ∀ t', pyWeekday t' = tw →
          (∀ ds w, some ds0 = some ds → dayNames (pyLower ds) = some w → pyWeekday t' = w) := by
        intro t' hwd ds w hds hw
        injection hds with hds'
        subst hds'
        rw [hdn] at hw
        injection hw with hw'
        subst hw'
        exact hwd
      have hda0 : (0 : Int) ≤ ((tw : Int) - (pyWeekday t0 : Int)) % 7 ∧
          ((tw : Int) - (pyWeekday t0 : Int)) % 7 < 7 := by omega
      by_cases hcond : (((tw : Int) - (pyWeekday t0 : Int)) % 7 = 0 ∧ pyLE t0 fake = true)
      · rw [if_pos hcond] at h
        rw [if_pos (show (0 : Int) < 7 by omega)] at h
        rw [show Int.toNat 7 = 7 from rfl] at h
        injection h with h'
        subst h'
        obtain ⟨hvr, hordr, hhr, hmr, hsr⟩ := addDays_spec hv 7
        refine ⟨hvr, by omega, hhr, hmr, hsr, hgoalWd _ ?_⟩
        show dateOrd (addDays 7 t0) % 7 = tw
        rw [hordr]
        omega
      · rw [if_neg hcond] at h
        by_cases hpos : (0 : Int) < ((tw : Int) - (pyWeekday t0 : Int)) % 7
        · rw [if_pos hpos] at h
          injection h with h'
          subst h'
          obtain ⟨hvr, hordr, hhr, hmr, hsr⟩ :=
            addDays_spec hv (((tw : Int) - (pyWeekday t0 : Int)) % 7).toNat
          refine ⟨hvr, by omega, hhr, hmr, hsr, hgoalWd _ ?_⟩
          show dateOrd (addDays (((tw : Int) - (pyWeekday t0 : Int)) % 7).toNat t0) % 7 = tw
          rw [hordr]
          omega
        · rw [if_neg hpos] at h
          injection h with h'
          subst h'
          refine ⟨hv, hord, rfl, rfl, rfl, hgoalWd _ ?_⟩
          show dateOrd t0 % 7 = tw
          omega

/-- Step 4 preserves the date, sets exactly the specified time fields and
keeps the unspecified ones. -/
theorem step4_spec {t0 t : PyDateTime} {oh om os : Option Nat}
    (hv : Valid t0) (h : step4Time t0 oh om os = .ok t) :
    Valid t ∧ t.year = t0.year ∧ t.month = t0.month ∧ t.day = t0.day ∧
    (∀ v, oh = some v → t.hour = v) ∧ (oh = none → t.hour = t0.hour) ∧
    (∀ v, om = some v → t.minute = v) ∧ (om = none → t.minute = t0.minute) ∧
    (∀ v, os = some v → t.second = v) ∧ (os = none → t.second = t0.second) := by
  obtain ⟨y, mo, d0, hh, mi, s0⟩ := t0
  obtain ⟨h1, h2, h3, h4, h5, h6, h7, h8⟩ := hv
  try dsimp only at h1 h2 h3 h4 h5 h6 h7 h8
  unfold step4Time at h
  simp only [bind, Except.bind] at h
  cases oh with
  | some v1 =>
    try dsimp only at h
    by_cases hr1 : v1 ≤ 23
    rotate_left
    · rw [if_neg hr1] at h
      try dsimp only at h
      exact Except.noConfusion h
    · rw [if_pos hr1] at h
      try dsimp only at h
      cases om with
      | some v2 =>
        try dsimp only at h
        by_cases hr2 : v2 ≤ 59
        rotate_left
        · rw [if_neg hr2] at h
          try dsimp only at h
          exact Except.noConfusion h
        · rw [if_pos hr2] at h
          try dsimp only at h
          cases os with
          | some v3 =>
            try dsimp only at h
            by_cases hr3 : v3 ≤ 59
            rotate_left
            · rw [if_neg hr3] at h
              exact Except.noConfusion h
            · rw [if_pos hr3] at h
              injection h with h'
              subst h'
              exact ⟨Valid_mk h1 h2 h3 h4 h5 (by omega) (by omega) (by omega),
                rfl, rfl, rfl,
                fun v hv' => by cases hv'; rfl,
                fun hv' => Option.noConfusion hv',
                fun v hv' => by cases hv'; rfl,
                fun hv' => Option.noConfusion hv',
                fun v hv' => by cases hv'; rfl,
                fun hv' => Option.noConfusion hv'⟩
          | none =>
            injection h with h'
            subst h'
            exact ⟨Valid_mk h1 h2 h3 h4 h5 (by omega) (by omega) h8,
              rfl, rfl, rfl,
              fun v hv' => by cases hv'; rfl,
              fun hv' => Option.noConfusion hv',
              fun v hv' => by cases hv'; rfl,
              fun hv' => Option.noConfusion hv',
              fun v hv' => Option.noConfusion hv',
              fun _ => rfl⟩
      | none =>
        try dsimp only at h
        cases os with
        | some v3 =>
          try dsimp only at h
          by_cases hr3 : v3 ≤ 59
          rotate_left
          · rw [if_neg hr3] at h
            exact Except.noConfusion h
          · rw [if_pos hr3] at h
            injection h with h'
            subst h'
            exact ⟨Valid_mk h1 h2 h3 h4 h5 (by omega) h7 (by omega),
              rfl, rfl, rfl,
              fun v hv' => by cases hv'; rfl,
              fun hv' => Option.noConfusion hv',
              fun v hv' => Option.noConfusion hv',
              fun _ => rfl,
              fun v hv' => by cases hv'; rfl,
              fun hv' => Option.noConfusion hv'⟩
        | none =>
          injection h with h'
          subst h'
          exact ⟨Valid_mk h1 h2 h3 h4 h5 (by omega) h7 h8,
            rfl, rfl, rfl,
            fun v hv' => by cases hv'; rfl,
            fun hv' => Option.noConfusion hv',
            fun v hv' => Option.noConfusion hv',
            fun _ => rfl,
            fun v hv' => Option.noConfusion hv',
            fun _ => rfl⟩
  | none =>
    try dsimp only at h
    cases om with
    | some v2 =>
      try dsimp only at h
      by_cases hr2 : v2 ≤ 59
      rotate_left
      · rw [if_neg hr2] at h
        try dsimp only at h
        exact Except.noConfusion h
      · rw [if_pos hr2] at h
        try dsimp only at h
        cases os with
        | some v3 =>
          try dsimp only at h
          by_cases hr3 : v3 ≤ 59
          rotate_left
          · rw [if_neg hr3] at h
            exact Except.noConfusion h
          · rw [if_pos hr3] at h
            injection h with h'
            subst h'
            exact ⟨Valid_mk h1 h2 h3 h4 h5 h6 (by omega) (by omega),
              rfl, rfl, rfl,
              fun v hv' => Option.noConfusion hv',
              fun _ => rfl,
              fun v hv' => by cases hv'; rfl,
              fun hv' => Option.noConfusion hv',
              fun v hv' => by cases hv'; rfl,
              fun hv' => Option.noConfusion hv'⟩
        | none =>
          injection h with h'
          subst h'
          exact ⟨Valid_mk h1 h2 h3 h4 h5 h6 (by omega) h8,
            rfl, rfl, rfl,
            fun v hv' => Option.noConfusion hv',
            fun _ => rfl,
            fun v hv' => by cases hv'; rfl,
            fun hv' => Option.noConfusion hv',
            fun v hv' => Option.noConfusion hv',
            fun _ => rfl⟩
    | none =>
      try dsimp only at h
      cases os with
      | some v3 =>
        try dsimp only at h
        by_cases hr3 : v3 ≤ 59
        rotate_left
        · rw [if_neg hr3] at h
          exact Except.noConfusion h
        · rw [if_pos hr3] at h
          injection h with h'
          subst h'
          exact ⟨Valid_mk h1 h2 h3 h4 h5 h6 h7 (by omega),
            rfl, rfl, rfl,
            fun v hv' => Option.noConfusion hv',
            fun _ => rfl,
            fun v hv' => Option.noConfusion hv',
            fun _ => rfl,
            fun v hv' => by cases hv'; rfl,
            fun hv' => Option.noConfusion hv'⟩
      | none =>
        injection h with h'
        subst h'
        exact ⟨⟨h1, h2, h3, h4, h5, h6, h7, h8⟩,
          rfl, rfl, rfl,
          fun v hv' => Option.noConfusion hv',
          fun _ => rfl,
          fun v hv' => Option.noConfusion hv',
          fun _ => rfl,
          fun v hv' => Option.noConfusion hv',
          fun _ => rfl⟩

/-- Combined facts about the four resolution steps of `jump_to_next`. -/
theorem resolveConstraints_spec {fake t : PyDateTime} {a : JumpArgs}
    (hvf : Valid fake) (h : resolveConstraints fake a = .ok t) :
    Valid t ∧ dateOrd fake ≤ dateOrd t ∧
    (∀ v, a.hour = some v → t.hour = v) ∧ (a.hour = none → t.hour = fake.hour) ∧
    (∀ v, a.minute = some v → t.minute = v) ∧ (a.minute = none → t.minute = fake.minute) ∧
    (∀ v, a.second = some v → t.second = v) ∧ (a.second = none → t.second = fake.second) ∧
    (∀ ds w, a.day = some ds → dayNames (pyLower ds) = some w → pyWeekday t = w) := by
  unfold resolveConstraints at h
  simp only [bind, Except.bind] at h
  cases h1m : step1Month fake a.month with
  | error e =>
    rw [h1m] at h
    try dsimp only at h
    exact Except.noConfusion h
  | ok t1 =>
    rw [h1m] at h
    try dsimp only at h
    obtain ⟨hv1, ho1, hh1, hm1, hs1⟩ := step1Month_spec hvf h1m
    cases h2m : step2DayOfMonth fake t1 a.day_of_month with
    | error e =>
      rw [h2m] at h
      try dsimp only at h
      exact Except.noConfusion h
    | ok t2 =>
      rw [h2m] at h
      try dsimp only at h
      obtain ⟨hv2, ho2, hh2, hm2, hs2⟩ := step2_spec hvf hv1 ho1 h2m
      cases h3m : step3Weekday fake t2 a.day with
      | error e =>
        rw [h3m] at h
        try dsimp only at h
        exact Except.noConfusion h
      | ok t3 =>
        rw [h3m] at h
        try dsimp only at h
        obtain ⟨hv3, ho3, hh3, hm3, hs3, hwd3⟩ := step3_spec hv2 ho2 h3m
        obtain ⟨hv4, hy4, hmo4, hd4, hsetH, hkeepH, hsetM, hkeepM, hsetS, hkeepS⟩ :=
          step4_spec hv3 h
        have hde : dateOrd t = dateOrd t3 := by
          unfold dateOrd
          rw [hy4, hmo4, hd4]
        refine ⟨hv4, by omega, hsetH, ?_, hsetM, ?_, hsetS, ?_, ?_⟩
        · intro hn
          rw [hkeepH hn, hh3, hh2, hh1]
        · intro hn
          rw [hkeepM hn, hm3, hm2, hm1]
        · intro hn
          rw [hkeepS hn, hs3, hs2, hs1]
        · intro ds w hds hw
          have hwd := hwd3 ds w hds hw
          unfold pyWeekday at hwd ⊢
          rw [hde]
          exact hwd

/-- Success facts about `jump_to_next`: the result is valid, strictly after
`_fake_time`, satisfies the time-of-day and weekday constraints exactly and
preserves unspecified time-of-day fields. -/
theorem jump_to_next_spec {fake t : PyDateTime} {a : JumpArgs}
    (hvf : Valid fake) (h : jump_to_next fake a = .ok t) :
    Valid t ∧ toAbs fake < toAbs t ∧
    (∀ v, a.hour = some v → t.hour = v) ∧ (a.hour = none → t.hour = fake.hour) ∧
    (∀ v, a.minute = some v → t.minute = v) ∧ (a.minute = none → t.minute = fake.minute) ∧
    (∀ v, a.second = some v → t.second = v) ∧ (a.second = none → t.second = fake.second) ∧
    (∀ ds w, a.day = some ds → dayNames (pyLower ds) = some w → pyWeekday t = w) := by
  unfold jump_to_next at h
  cases hres : resolveConstraints fake a with
  | error e =>
    rw [hres] at h
    exact Except.noConfusion h
  | ok c =>
    rw [hres] at h
    simp only [Except.map] at h
    injection h with h'
    obtain ⟨hvc, hoc, hsetH, hkeepH, hsetM, hkeepM, hsetS, hkeepS, hwd⟩ :=
      resolveConstraints_spec hvf hres
    have htf := timeOfDay_lt hvf
    have htc := timeOfDay_lt hvc
    unfold rolloverFix at h'
    by_cases hle : pyLE c fake = true
    · rw [if_pos hle] at h'
      have habs := (pyLE_iff hvc hvf).mp hle
      cases hday : a.day with
      | some ds0 =>
        rw [hday] at h'
        simp only [Option.isSome_some, eq_self_iff_true, if_true] at h'
        subst h'
        obtain ⟨hvr, hordr, hhr, hmr, hsr⟩ := addDays_spec hvc 7
        have habs7 := toAbs_addDays hvc 7
        refine ⟨hvr, ?_, ?_, ?_, ?_, ?_, ?_, ?_, ?_⟩
        · unfold toAbs at habs habs7 ⊢
          omega
        · intro v hv'
          rw [hhr]
          exact hsetH v hv'
        · intro hn
          rw [hhr]
          exact hkeepH hn
        · intro v hv'
          rw [hmr]
          exact hsetM v hv'
        · intro hn
          rw [hmr]
          exact hkeepM hn
        · intro v hv'
          rw [hsr]
          exact hsetS v hv'
        · intro hn
          rw [hsr]
          exact hkeepS hn
        · intro ds w hds hw
          have hwdc := hwd ds w (hday ▸ hds) hw
          unfold pyWeekday at hwdc ⊢
          rw [hordr]
          omega
      | none =>
        rw [hday] at h'
        simp only [Option.isSome_none] at h'
        rw [if_neg Bool.false_ne_true] at h'
        subst h'
        obtain ⟨hvr, hordr, hhr, hmr, hsr⟩ := addDays_spec hvc 1
        have habs1 := toAbs_addDays hvc 1
        refine ⟨hvr, ?_, ?_, ?_, ?_, ?_, ?_, ?_, ?_⟩
        · unfold toAbs at habs habs1 ⊢
          omega
        · intro v hv'
          rw [hhr]
          exact hsetH v hv'
        · intro hn
          rw [hhr]
          exact hkeepH hn
        · intro v hv'
          rw [hmr]
          exact hsetM v hv'
        · intro hn
          rw [hmr]
          exact hkeepM hn
        · intro v hv'
          rw [hsr]
          exact hsetS v hv'
        · intro hn
          rw [hsr]
          exact hkeepS hn
        · intro ds w hds hw
          exact Option.noConfusion hds
    · rw [if_neg hle] at h'
      subst h'
      have habs := (pyLE_false_iff hvc hvf).mp (Bool.not_eq_true _ ▸ hle)
      exact ⟨hvc, habs, hsetH, hkeepH, hsetM, hkeepM, hsetS, hkeepS, hwd⟩

/-- A successful `advance_to_preset` only ever returns a target that passed
the strict forward check. -/
theorem advance_to_preset_ok {fake t : PyDateTime}
    {oracle : Option (Option SunAttributes)} {preset : String} {offset : Option Int}
    (h : advance_to_preset fake oracle preset offset = .ok t) :
    pyLE t fake = false := by
  unfold advance_to_preset at h
  cases oracle with
  | none => exact Except.noConfusion h
  | some sunState =>
    try dsimp only at h
    split at h
    · exact Except.noConfusion h
    · cases sunState with
      | none => exact Except.noConfusion h
      | some attrs =>
        try dsimp only at h
        cases hiso : (if pyLower preset = "sunrise" then attrs.next_rising
            else attrs.next_setting) with
        | none =>
          rw [hiso] at h
          exact Except.noConfusion h
        | some iso =>
          rw [hiso] at h
          try dsimp only at h
          split at h
          case isTrue hguard => exact Except.noConfusion h
          case isFalse hguard =>
            injection h with h'
            subst h'
            exact Bool.not_eq_true _ ▸ hguard

/-- Totality of the Python comparison: a failed `<=` means the reverse
strict comparison holds. -/
theorem pyLT_of_pyLE_false {a b : PyDateTime} (h : pyLE a b = false) :
    pyLT b a = true := by
  rcases pyLT_total a b with h' | h' | h'
  · rw [pyLE, h'] at h
    exact absurd h (by simp)
  · subst h'
    rw [pyLE] at h
    simp at h
  · exact h'

/-- With a working sink, `_set_time` always commits the target, whatever
the hook does. -/
theorem _set_time_fake_of_sinkOk {env : SinkEnv} (hs : env.sinkOk = true)
    (f t : PyDateTime) : (_set_time env f t).fake = t := by
  unfold _set_time
  try dsimp only
  simp only [hs, if_true, eq_self_iff_true]
  cases env.hook with
  | none => rfl
  | some b => cases b <;> rfl

/-- A `_set_time` call that did not raise has committed the target. -/
theorem _set_time_ok_fake {env : SinkEnv} {f t : PyDateTime}
    (h : (_set_time env f t).ok = true) : (_set_time env f t).fake = t := by
  unfold _set_time at h ⊢
  try dsimp only at h ⊢
  cases hs : env.sinkOk with
  | false =>
    try simp only [hs] at h
    exact absurd h (by simp)
  | true =>
    try simp only [hs, if_true, eq_self_iff_true] at h ⊢
    cases hk : env.hook with
    | none =>
      try rw [hk] at h
      try rw [hk]
      try rfl
    | some b =>
      try rw [hk] at h
      try rw [hk]
      cases b with
      | false =>
        try dsimp only at h
        exact absurd h (by simp)
      | true => rfl

/-- The helper `_set_time` always hands the sink exactly one `@`-formatted absolute
timestamp. -/
theorem _set_time_sinkMsgs (env : SinkEnv) (f t : PyDateTime) :
    (_set_time env f t).sinkMsgs = [formatFaketime t] := by
  unfold _set_time
  try dsimp only
  cases hs : env.sinkOk
  · try simp only [hs]
    try rfl
  · try simp only [hs, if_true, eq_self_iff_true]
    cases hk : env.hook
    · try simp only [hk]
      try rfl
    · rename_i b
      cases b <;> first
      | rfl
      | (simp only [hk]; rfl)

/-- The comparison `pyLE` follows from `pyLT`. -/
theorem pyLE_of_pyLT {a b : PyDateTime} (h : pyLT a b = true) : pyLE a b = true := by
  unfold pyLE
  rw [h]
  rfl

/-- A façade call that returned without raising went through the resolver
successfully and committed the resolved target. -/
theorem stepOp_ok_fake {env : SinkEnv} {fake : PyDateTime} {op : Op}
    (h : (stepOp env fake op).ok = true) :
    ∃ target, resolveOp fake op = .ok target ∧ (stepOp env fake op).fake = target := by
  unfold stepOp at h ⊢
  cases hres : resolveOp fake op with
  | error e =>
    rw [hres] at h
    exact absurd h (by simp)
  | ok target =>
    try rw [hres] at h
    try rw [hres]
    try dsimp only at h ⊢
    exact ⟨target, rfl, _set_time_ok_fake h⟩

/-- Evaluation of `advance_to_preset` down to its forward guard, for a
configured oracle whose relevant attribute parses to `⟨dtv, tz⟩`. -/
theorem advance_to_preset_eval (fake dtv : PyDateTime) (tz : Option Int)
    (off : Option Int) {p : String} (hp : pyLower p = "sunrise" ∨ pyLower p = "sunset")
    (rising setting : Option IsoTimestamp)
    (hpick : (if pyLower p = "sunrise" then rising else setting) = some ⟨dtv, tz⟩) :
    advance_to_preset fake (some (some ⟨rising, setting⟩)) p off =
      if pyLE (addSecondsInt dtv (off.getD 0)) fake = true then .error .timeMachineError
      else .ok (addSecondsInt dtv (off.getD 0)) := by
  unfold advance_to_preset
  try dsimp only
  have hval : ¬(pyLower p ≠ "sunrise" ∧ pyLower p ≠ "sunset") := by
    rcases hp with h | h <;> simp [h]
  rw [if_neg hval]
  try dsimp only
  rw [hpick]
  rfl

/-! ### Claim theorems -/

/-- C1: every successful `fast_forward`, `jump_to_next` or
`advance_to_preset` call leaves `_fake_time` at or after its previous value
(in Python's own datetime order), and strictly after it for `jump_to_next`
and `advance_to_preset`.  The pre-state is arbitrary, so the property holds
along any sequence of such calls. -/
theorem timeMachine_monotonic (env : SinkEnv) (fake : PyDateTime) (op : Op)
    (hv : Valid fake) (hok : (stepOp env fake op).ok = true) :
    pyLE fake (stepOp env fake op).fake = true ∧
    (∀ a, op = Op.jumpToNext a → pyLT fake (stepOp env fake op).fake = true) ∧
    (∀ o p off, op = Op.advanceToPreset o p off →
      pyLT fake (stepOp env fake op).fake = true) := by
  obtain ⟨target, hres, hfake⟩ := stepOp_ok_fake hok
  rw [hfake]
  cases op with
  | fastForward delta =>
    unfold resolveOp fast_forward at hres
    try dsimp only at hres
    split at hres
    · exact Except.noConfusion hres
    · injection hres with h'
      subst h'
      obtain ⟨hvt, habs⟩ := addSeconds_spec hv delta.toNat
      exact ⟨(pyLE_iff hv hvt).mpr (by omega),
        fun a heq => Op.noConfusion heq,
        fun o p off heq => Op.noConfusion heq⟩
  | jumpToNext a =>
    unfold resolveOp at hres
    try dsimp only at hres
    obtain ⟨hvt, habs, -, -, -, -, -, -, -⟩ := jump_to_next_spec hv hres
    have hlt := (pyLT_iff hv hvt).mpr habs
    exact ⟨pyLE_of_pyLT hlt, fun _ _ => hlt, fun o p off heq => Op.noConfusion heq⟩
  | advanceToPreset o p off =>
    unfold resolveOp at hres
    try dsimp only at hres
    have hlt := pyLT_of_pyLE_false (advance_to_preset_ok hres)
    exact ⟨pyLE_of_pyLT hlt, fun a heq => Op.noConfusion heq, fun _ _ _ _ => hlt⟩

theorem timeMachine_monotonic_witness :
    pyLE ⟨2026, 6, 1, 9, 0, 0⟩
      (stepOp ⟨true, none⟩ ⟨2026, 6, 1, 9, 0, 0⟩ (Op.fastForward 172800)).fake = true :=
  (timeMachine_monotonic ⟨true, none⟩ ⟨2026, 6, 1, 9, 0, 0⟩ (Op.fastForward 172800)
    (by decide) (by decide)).1

/-- C2: the month-resolution step of `jump_to_next` is not total.  When the
requested month is later in the same year and the current day-of-month does
not exist in it, `target_dt.replace(month=...)` raises `ValueError` instead
of clamping: from 2026-01-31 14:30:00, `jump_to_next(month="Feb")` raises,
and so does the docstring's own example
`jump_to_next(month="Feb", day="Monday", hour=10)` (source lines 205-207,
which promise Feb 3 10:00:00). -/
theorem jump_month_overflow_raises :
    jump_to_next ⟨2026, 1, 31, 14, 30, 0⟩ { month := some "Feb" } =
      .error .valueError ∧
    jump_to_next ⟨2026, 1, 31, 14, 30, 0⟩
      { month := some "Feb", day := some "Monday", hour := some 10 } =
      .error .valueError := by
  decide

/-- C4: a month constraint naming the current month does not leave the
candidate unchanged: the code's `target_month <= target_dt.month` branch
adds a full year (`relativedelta(years=1)`), contradicting the comment
"If target month is same as current, we're already there" (source line
228): from 2026-05-10 12:00:00, `jump_to_next(month="May")` yields
2027-05-10 12:00:00. -/
theorem jump_same_month_advances_year :
    jump_to_next ⟨2026, 5, 10, 12, 0, 0⟩ { month := some "May" } =
      .ok ⟨2027, 5, 10, 12, 0, 0⟩ := by
  decide

/-- C3 counterexample: from 2026-01-28 10:00:00,
`jump_to_next(month="feb", day_of_month=28, day="friday")` succeeds with
2026-03-06 10:00:00 — the weekday search crossed the month boundary, so
neither the requested month (February) nor the requested day-of-month (28)
holds in the result. -/
theorem jump_constraint_violation_cex :
    jump_to_next ⟨2026, 1, 28, 10, 0, 0⟩
        { month := some "feb", day_of_month := some 28, day := some "friday" } =
      .ok ⟨2026, 3, 6, 10, 0, 0⟩ ∧
    monthNames (pyLower "feb") = some 2 ∧
    ((⟨2026, 3, 6, 10, 0, 0⟩ : PyDateTime).month == 2 ||
      (⟨2026, 3, 6, 10, 0, 0⟩ : PyDateTime).day == 28) = false := by
  decide

/-- C3 (amended): for every successful `jump_to_next` call, each specified
time-of-day field (hour, minute, second) of the result equals the requested
value, each unspecified one equals its pre-call value, and a specified
weekday constraint is met exactly; specified month and day-of-month
constraints can be violated when later resolution steps (clamping, the
weekday search, or the final rollover) move past them. -/
theorem jump_constraint_satisfaction (fake t : PyDateTime) (a : JumpArgs)
    (hv : Valid fake) (h : jump_to_next fake a = .ok t) :
    (∀ v, a.hour = some v → t.hour = v) ∧ (a.hour = none → t.hour = fake.hour) ∧
    (∀ v, a.minute = some v → t.minute = v) ∧
    (a.minute = none → t.minute = fake.minute) ∧
    (∀ v, a.second = some v → t.second = v) ∧
    (a.second = none → t.second = fake.second) ∧
    (∀ ds w, a.day = some ds → dayNames (pyLower ds) = some w → pyWeekday t = w) := by
  obtain ⟨-, -, h1, h2, h3, h4, h5, h6, h7⟩ := jump_to_next_spec hv h
  exact ⟨h1, h2, h3, h4, h5, h6, h7⟩

theorem jump_constraint_satisfaction_witness :
    (⟨2026, 1, 16, 2, 0, 0⟩ : PyDateTime).hour = 2 ∧
    (⟨2026, 1, 16, 2, 0, 0⟩ : PyDateTime).minute =
      (⟨2026, 1, 15, 3, 0, 0⟩ : PyDateTime).minute :=
  ⟨(jump_constraint_satisfaction ⟨2026, 1, 15, 3, 0, 0⟩ ⟨2026, 1, 16, 2, 0, 0⟩
      { hour := some 2 } (by decide) (by decide)).1 2 rfl,
   (jump_constraint_satisfaction ⟨2026, 1, 15, 3, 0, 0⟩ ⟨2026, 1, 16, 2, 0, 0⟩
      { hour := some 2 } (by decide) (by decide)).2.2.2.1 rfl⟩

/-- C5: when the candidate after all four resolution steps is not strictly
after `_fake_time`, `jump_to_next` applies exactly one corrective rollover —
7 days when a weekday constraint was given, 1 day otherwise — and
concretely `jump_to_next(hour=2)` from 2026-01-15 03:00:00 yields
2026-01-16 02:00:00. -/
theorem jump_rollover_correction :
    (∀ (fake c : PyDateTime) (a : JumpArgs), resolveConstraints fake a = .ok c →
      pyLE c fake = true →
      jump_to_next fake a = .ok (addDays (if a.day.isSome then 7 else 1) c)) ∧
    jump_to_next ⟨2026, 1, 15, 3, 0, 0⟩ { hour := some 2 } =
      .ok ⟨2026, 1, 16, 2, 0, 0⟩ := by
  constructor
  · intro fake c a hres hle
    unfold jump_to_next
    rw [hres]
    simp only [Except.map]
    unfold rolloverFix
    rw [if_pos hle]
    cases hday : a.day with
    | some ds => simp [Option.isSome_some]
    | none => simp [Option.isSome_none]
  · decide

theorem jump_rollover_correction_witness :
    jump_to_next ⟨2026, 1, 15, 3, 0, 0⟩ { hour := some 2 } =
      .ok (addDays
        (if ({ hour := some 2 } : JumpArgs).day.isSome then 7 else 1)
        ⟨2026, 1, 15, 2, 0, 0⟩) :=
  jump_rollover_correction.1 ⟨2026, 1, 15, 3, 0, 0⟩ ⟨2026, 1, 15, 2, 0, 0⟩
    { hour := some 2 } (by decide) (by decide)

/-- C6: `advance_to_preset` computes `target = event time + offset`; a
target not strictly after `_fake_time` (equality included) raises without
any rollover correction, without calling the sink and without touching
`_fake_time`; a strictly-future target is committed (when the sink
succeeds). -/
theorem advance_to_preset_forward_guard (fake dtv : PyDateTime) (tz : Option Int)
    (off : Option Int) (env : SinkEnv) (p : String)
    (hp : pyLower p = "sunrise" ∨ pyLower p = "sunset") :
    (pyLE (addSecondsInt dtv (off.getD 0)) fake = true →
      stepOp env fake (Op.advanceToPreset
        (some (some ⟨some ⟨dtv, tz⟩, some ⟨dtv, tz⟩⟩)) p off) = ⟨fake, false, []⟩) ∧
    (pyLE (addSecondsInt dtv (off.getD 0)) fake = false →
      advance_to_preset fake (some (some ⟨some ⟨dtv, tz⟩, some ⟨dtv, tz⟩⟩)) p off =
        .ok (addSecondsInt dtv (off.getD 0)) ∧
      (env.sinkOk = true →
        (stepOp env fake (Op.advanceToPreset
          (some (some ⟨some ⟨dtv, tz⟩, some ⟨dtv, tz⟩⟩)) p off)).fake =
          addSecondsInt dtv (off.getD 0))) := by
  have heval := advance_to_preset_eval fake dtv tz off hp (some ⟨dtv, tz⟩)
    (some ⟨dtv, tz⟩) (by split <;> rfl)
  constructor
  · intro hguard
    have hres : advance_to_preset fake (some (some ⟨some ⟨dtv, tz⟩, some ⟨dtv, tz⟩⟩)) p off =
        .error .timeMachineError := by
      rw [heval, if_pos hguard]
    unfold stepOp resolveOp
    try dsimp only
    rw [hres]
  · intro hguard
    have hres : advance_to_preset fake (some (some ⟨some ⟨dtv, tz⟩, some ⟨dtv, tz⟩⟩)) p off =
        .ok (addSecondsInt dtv (off.getD 0)) := by
      rw [heval, if_neg (by simp [hguard])]
    refine ⟨hres, fun hs => ?_⟩
    unfold stepOp resolveOp
    try dsimp only
    rw [hres]
    exact _set_time_fake_of_sinkOk hs _ _

theorem advance_to_preset_forward_guard_witness :
    stepOp ⟨true, none⟩ ⟨2026, 6, 21, 5, 0, 0⟩
      (Op.advanceToPreset
        (some (some ⟨some ⟨⟨2026, 6, 21, 5, 0, 0⟩, some 0⟩,
                     some ⟨⟨2026, 6, 21, 5, 0, 0⟩, some 0⟩⟩))
        "sunrise" (some (-21600))) = ⟨⟨2026, 6, 21, 5, 0, 0⟩, false, []⟩ :=
  (advance_to_preset_forward_guard ⟨2026, 6, 21, 5, 0, 0⟩ ⟨2026, 6, 21, 5, 0, 0⟩
    (some 0) (some (-21600)) ⟨true, none⟩ "sunrise" (Or.inl (by decide))).1 (by decide)

/-- C7 counterexample: with a hook configured to raise, `_set_time` raises
(`ok = false`) even though the sink call succeeded and the new time was
committed — the operation does not complete without raising. -/
theorem hook_failure_raises_cex :
    (_set_time ⟨true, some false⟩ ⟨2026, 1, 1, 0, 0, 0⟩ ⟨2026, 1, 2, 0, 0, 0⟩).ok = false ∧
    (_set_time ⟨true, some false⟩ ⟨2026, 1, 1, 0, 0, 0⟩ ⟨2026, 1, 2, 0, 0, 0⟩).fake =
      ⟨2026, 1, 2, 0, 0, 0⟩ := by
  decide

/-- C7 (amended): the post-update hook runs inside the same `try` as the
sink call, so a hook failure is re-raised as `TimeMachineError`; the
logical time nevertheless stays committed, because `_fake_time` was
updated before the hook ran. -/
theorem hook_failure_propagates (env : SinkEnv) (fake target : PyDateTime)
    (hs : env.sinkOk = true) (hh : env.hook = some false) :
    _set_time env fake target = ⟨target, false, [formatFaketime target]⟩ := by
  unfold _set_time
  try dsimp only
  rw [hs, hh]
  rfl

theorem hook_failure_propagates_witness :
    _set_time ⟨true, some false⟩ ⟨2026, 4, 1, 0, 0, 0⟩ ⟨2026, 4, 2, 0, 0, 0⟩ =
      ⟨⟨2026, 4, 2, 0, 0, 0⟩, false, [formatFaketime ⟨2026, 4, 2, 0, 0, 0⟩]⟩ :=
  hook_failure_propagates ⟨true, some false⟩ ⟨2026, 4, 1, 0, 0, 0⟩
    ⟨2026, 4, 2, 0, 0, 0⟩ rfl rfl

/-- C8 counterexample: `class TimeMachine` defines no `reset` method. -/
theorem no_reset_method_cex : (timeMachineMethods.contains "reset") = false := by
  decide

/-- C8 (amended): the engine exposes no `reset()` operation — its methods
are exactly `__init__`, `_set_time`, `fast_forward`, `jump_to_next` and
`advance_to_preset` — and every string any operation hands the sink is an
absolute `@`-formatted timestamp, never a disable sentinel; the internal
logical time is never cleared (the class docstring states time can only
move forward and cannot be reset). -/
theorem no_reset_operation :
    timeMachineMethods =
      ["__init__", "_set_time", "fast_forward", "jump_to_next", "advance_to_preset"] ∧
    (timeMachineMethods.contains "reset") = false ∧
    ∀ (env : SinkEnv) (fake : PyDateTime) (op : Op) (msg : String),
      msg ∈ (stepOp env fake op).sinkMsgs → ∃ dtv, msg = formatFaketime dtv := by
  refine ⟨rfl, by decide, ?_⟩
  intro env fake op msg hmem
  unfold stepOp at hmem
  cases hres : resolveOp fake op with
  | error e =>
    try rw [hres] at hmem
    try dsimp only at hmem
    exact absurd hmem (by simp)
  | ok target =>
    try rw [hres] at hmem
    try dsimp only at hmem
    rw [_set_time_sinkMsgs] at hmem
    exact ⟨target, by simpa using hmem⟩

theorem no_reset_operation_witness :
    ∃ dtv, "@2026-06-03 09:00:00" = formatFaketime dtv :=
  no_reset_operation.2.2 ⟨true, none⟩ ⟨2026, 6, 1, 9, 0, 0⟩ (Op.fastForward 172800)
    "@2026-06-03 09:00:00" (by decide)

/-- C9: with a working sink, `fast_forward(a)` then `fast_forward(b)`
leaves the same logical time as a single `fast_forward(a+b)` from the same
start, for non-negative durations. -/
theorem fast_forward_additivity (env : SinkEnv) (fake : PyDateTime) (a b : Int)
    (ha : 0 ≤ a) (hb : 0 ≤ b) (hs : env.sinkOk = true) :
    (stepOp env (stepOp env fake (Op.fastForward a)).fake (Op.fastForward b)).fake =
      (stepOp env fake (Op.fastForward (a + b))).fake := by
  have hstep : ∀ (f : PyDateTime) (z : Int), 0 ≤ z →
      (stepOp env f (Op.fastForward z)).fake = addSeconds f z.toNat := by
    intro f z hz
    unfold stepOp resolveOp fast_forward
    try dsimp only
    rw [if_neg (by omega : ¬ z < 0)]
    try dsimp only
    exact _set_time_fake_of_sinkOk hs f _
  rw [hstep fake a ha, hstep _ b hb, hstep fake (a + b) (by omega),
    addSeconds_addSeconds]
  congr 1
  omega

theorem fast_forward_additivity_witness :
    (stepOp ⟨true, none⟩
        (stepOp ⟨true, none⟩ ⟨2026, 6, 1, 9, 0, 0⟩ (Op.fastForward 3600)).fake
        (Op.fastForward 1800)).fake =
      (stepOp ⟨true, none⟩ ⟨2026, 6, 1, 9, 0, 0⟩ (Op.fastForward (3600 + 1800))).fake :=
  fast_forward_additivity ⟨true, none⟩ ⟨2026, 6, 1, 9, 0, 0⟩ 3600 1800
    (by decide) (by decide) rfl

/-- C10: `advance_to_preset` discards the oracle timestamp's UTC offset
(`replace(tzinfo=None)`): the result never depends on the offset, and the
computed target is exactly the civil clock-face digits plus the offset
argument. -/
theorem preset_timezone_stripped :
    (∀ (fake dtv : PyDateTime) (tz1 tz2 : Option Int) (p : String) (off : Option Int),
      advance_to_preset fake (some (some ⟨some ⟨dtv, tz1⟩, some ⟨dtv, tz1⟩⟩)) p off =
        advance_to_preset fake (some (some ⟨some ⟨dtv, tz2⟩, some ⟨dtv, tz2⟩⟩)) p off) ∧
    (∀ (dtv : PyDateTime) (tz : Option Int), stripTzinfo ⟨dtv, tz⟩ = dtv) ∧
    (∀ (fake dtv : PyDateTime) (tz : Option Int) (off : Option Int),
      pyLE (addSecondsInt dtv (off.getD 0)) fake = false →
      advance_to_preset fake (some (some ⟨some ⟨dtv, tz⟩, some ⟨dtv, tz⟩⟩))
          "sunrise" off =
        .ok (addSecondsInt dtv (off.getD 0))) := by
  refine ⟨?_, fun dtv tz => rfl, ?_⟩
  · intro fake dtv tz1 tz2 p off
    unfold advance_to_preset
    try dsimp only
    by_cases hval : (pyLower p ≠ "sunrise" ∧ pyLower p ≠ "sunset")
    · simp only [if_pos hval] <;> rfl
    · simp only [if_neg hval]
      by_cases hsr : pyLower p = "sunrise"
      · simp only [if_pos hsr] <;> rfl
      · simp only [if_neg hsr] <;> rfl
  · intro fake dtv tz off hguard
    have heval := advance_to_preset_eval fake dtv tz off
      (Or.inl (show pyLower "sunrise" = "sunrise" by decide))
      (some ⟨dtv, tz⟩) (some ⟨dtv, tz⟩) (by split <;> rfl)
    rw [heval, if_neg (by simp [hguard])]

theorem preset_timezone_stripped_witness :
    advance_to_preset ⟨2026, 6, 20, 23, 0, 0⟩
        (some (some ⟨some ⟨⟨2026, 6, 21, 5, 0, 0⟩, some 0⟩,
                     some ⟨⟨2026, 6, 21, 5, 0, 0⟩, some 0⟩⟩))
        "sunrise" (some (-1800)) =
      .ok (addSecondsInt ⟨2026, 6, 21, 5, 0, 0⟩ ((some (-1800) : Option Int).getD 0)) :=
  preset_timezone_stripped.2.2 ⟨2026, 6, 20, 23, 0, 0⟩ ⟨2026, 6, 21, 5, 0, 0⟩
    (some 0) (some (-1800)) (by decide)

end TimeMachine
